import Mathlib

/-!
Shallow embedding of the QuickC editor extension (`src/extension.ts`).

Strings from the JavaScript runtime are modelled as `List Char` (`Str`);
the filesystem is modelled as the list of paths that currently exist;
the editor's decoration state, the module-level debounce timer and the
workspace configuration are explicit structures.  Each definition below
is translated from the function of the same name in `extension.ts`.
-/

abbrev Str := List Char

/-- JavaScript `String.prototype.trim` whitespace (the ASCII part; the
extension only ever meets compiler output, so the exotic Unicode space
characters are not modelled). -/
def isJsWs (c : Char) : Bool :=
  c = ' ' || c = '\t' || c = '\n' || c = '\r' || c = '\x0b' || c = '\x0c'

/-- Leading-whitespace removal, as in JS `trimStart`. -/
def trimStartStr (s : Str) : Str := s.dropWhile isJsWs

/-- Trailing-whitespace removal, as in JS `trimEnd`. -/
def trimEndStr : Str → Str
  | [] => []
  | c :: rest =>
    let r := trimEndStr rest
    if r.isEmpty && isJsWs c then [] else c :: r

/-- JS `String.prototype.trim`. -/
def trimStr (s : Str) : Str := trimEndStr (trimStartStr s)

/-- JS `s.split('\n')` (always returns at least one chunk). -/
def splitOnNl : Str → List Str
  | [] => [[]]
  | c :: rest =>
    if c = '\n' then [] :: splitOnNl rest
    else
      match splitOnNl rest with
      | [] => [[c]]
      | h :: t => (c :: h) :: t

/-- JS `parts.join('\n')`. -/
def joinNl : List Str → Str
  | [] => []
  | [l] => l
  | l :: rest => l ++ '\n' :: joinNl rest

/-- JS `s.includes(pat)`: substring containment. -/
def containsSub (pat : Str) : Str → Bool
  | [] => pat.isPrefixOf []
  | c :: rest => pat.isPrefixOf (c :: rest) || containsSub pat rest

/-- The preprocessor-include marker filtered out of program output
(`extension.ts` lines 132 and 152). -/
def includeMarker : Str := "#include".data

/-- The line filter of `displayInlineOutput` / `runSelectedBlock`:
`line => !line.trim().startsWith('#include')`. -/
def keepLine (l : Str) : Bool := !(includeMarker.isPrefixOf (trimStr l))

/-- `output.split('\n').filter(line => !line.trim().startsWith('#include')).join('\n')`
(`extension.ts` lines 150-153 and 130-133). -/
def cleanOutput (s : Str) : Str := joinNl ((splitOnNl s).filter keepLine)

/-- The trigger test of `updateOutput`:
`lines[i].includes('printf') || lines[i].includes('scanf')` (line 48). -/
def hasMarkerLine (l : Str) : Bool :=
  containsSub "printf".data l || containsSub "scanf".data l

/-- The first-match scan of `updateOutput` (lines 46-52): the loop over
`lines` returning the first index whose line contains a trigger marker. -/
def firstMarkerIdx : List Str → Option Nat
  | [] => none
  | l :: rest =>
    if hasMarkerLine l then some 0
    else (firstMarkerIdx rest).map (· + 1)

/-- What the fired debounce callback decides to do (lines 54-58). -/
inductive FiredAction where
  | run (code : Str) (line : Nat)
  | clear
  deriving DecidableEq

/-- Body of the `setTimeout` callback in `updateOutput` (lines 43-58):
split the document, scan for the first trigger line, and either run the
whole document text against that line or clear the output. -/
def updateOutputFired (documentText : Str) : FiredAction :=
  match firstMarkerIdx (splitOnNl documentText) with
  | some i => .run documentText i
  | none => .clear

/-- JS `s.replace(pat, repl)` with a plain-string pattern: only the
first (leftmost) occurrence is replaced (`extension.ts` line 90). -/
def replaceFirstJs (pat repl : Str) : Str → Str
  | [] => if pat.isEmpty then repl else []
  | c :: rest =>
    if pat.isPrefixOf (c :: rest) then repl ++ (c :: rest).drop pat.length
    else c :: replaceFirstJs pat repl rest

/-- Fuelled worker for global replacement; the fuel is the length of the
input, which bounds the number of scan steps. -/
def replaceAllAux (pat repl : Str) : Nat → Str → Str
  | _, [] => []
  | 0, s => s
  | fuel + 1, c :: rest =>
    if !pat.isEmpty && pat.isPrefixOf (c :: rest) then
      repl ++ replaceAllAux pat repl fuel ((c :: rest).drop pat.length)
    else c :: replaceAllAux pat repl fuel rest

/-- JS `s.replace(new RegExp(pat, 'g'), repl)` for a literal nonempty
pattern: every occurrence is replaced, scanning left-to-right without
overlap (`extension.ts` line 125; the regex-metacharacter effect of `.`
inside the path is not modelled, the path is used as a literal). -/
def replaceAllJs (pat repl s : Str) : Str := replaceAllAux pat repl s.length s

/-- Fuelled worker counting left-to-right non-overlapping occurrences. -/
def occCountAux (pat : Str) : Nat → Str → Nat
  | _, [] => 0
  | 0, _ => 0
  | fuel + 1, c :: rest =>
    if !pat.isEmpty && pat.isPrefixOf (c :: rest) then
      occCountAux pat fuel ((c :: rest).drop pat.length) + 1
    else occCountAux pat fuel rest

/-- Number of left-to-right non-overlapping occurrences of `pat` in
`s`; the number of matches a global JS replace would rewrite. -/
def occCountJs (pat s : Str) : Nat := occCountAux pat s.length s

/-- `((endTime - startTime) / 1000).toFixed(2)` (`extension.ts` line 86)
for an elapsed time of `elapsedMs` milliseconds: seconds rendered with
exactly two digits after the decimal point (rounding to the nearest
centisecond, half up; binary-float tie noise of `toFixed` is not
modelled). -/
def renderExecTime (elapsedMs : Nat) : Str :=
  let centis := (elapsedMs + 5) / 10
  Nat.toDigits 10 (centis / 100) ++
    '.' :: [Nat.digitChar (centis / 10 % 10), Nat.digitChar (centis % 10)]

/-- ` (Execution Time: ${executionTime}s)` (`extension.ts` lines 157-158). -/
def timeSuffix (executionTime : Str) : Str :=
  " (Execution Time: ".data ++ executionTime ++ "s)".data

/-! ## Filesystem model: the set of paths that currently exist. -/

abbrev FS := List Str

/-- `fs.writeFileSync(p, ...)`: afterwards the path exists. -/
def writeFileSync (fs : FS) (p : Str) : FS := if p ∈ fs then fs else p :: fs

/-- `fs.existsSync(p)`. -/
def existsSyncFs (fs : FS) (p : Str) : Bool := p ∈ fs

/-- `fs.unlinkSync(p)`: removes the path, or throws (`Except.error`)
when the path does not exist; the extension never catches this. -/
def unlinkSync (fs : FS) (p : Str) : Except Str FS :=
  if p ∈ fs then .ok (fs.filter (fun q => q ≠ p)) else .error p

/-- The cleanup epilogue shared by both completion callbacks
(`extension.ts` lines 97-100 and 138-141): `fs.unlinkSync(src)` then
`if (fs.existsSync(out)) fs.unlinkSync(out)`.  A thrown deletion error
propagates out of the callback (`Except.error`). -/
def cleanupFiles (fs : FS) (src out : Str) : Except Str FS :=
  match unlinkSync fs src with
  | .error e => .error e
  | .ok fs1 => if existsSyncFs fs1 out then unlinkSync fs1 out else .ok fs1

/-- `path.join(__dirname, 'quickc.c')` (line 77). -/
def tempFilePath (dirname : Str) : Str := dirname ++ "/quickc.c".data

/-- `path.join(__dirname, 'quickc.out')` (line 78). -/
def outFilePath (dirname : Str) : Str := dirname ++ "/quickc.out".data

/-- `path.join(__dirname, 'quickc_block.c')` (line 113). -/
def blockTempFilePath (dirname : Str) : Str := dirname ++ "/quickc_block.c".data

/-- `path.join(__dirname, 'quickc_block.out')` (line 114). -/
def blockOutFilePath (dirname : Str) : Str := dirname ++ "/quickc_block.out".data

/-! ## Configuration, process results and editor state. -/

/-- The workspace settings under the `quickc` section, each possibly
unset (`vscode.workspace.getConfiguration('quickc').get(...)`). -/
structure QuickCConfig where
  executionDelay : Option Nat
  gccPath : Option Str
  inlineColor : Option Str
  deriving DecidableEq

/-- `defaultConfig.executionDelay` (line 12). -/
def defaultExecutionDelay : Nat := 300

/-- `defaultConfig.gccPath` (line 13). -/
def defaultGccPath : Str := "gcc".data

/-- `defaultConfig.inlineColor` (line 14). -/
def defaultInlineColor : Str := "grey".data

/-- What the `exec` callback receives: `error` (null for a clean exit,
carrying `error.message` otherwise), `stdout` and `stderr`. -/
structure ExecResult where
  error : Option Str
  stdout : Str
  stderr : Str
  deriving DecidableEq

/-- The branch condition `if (error || stderr)` of both completion
callbacks (lines 88 and 122): JS truthiness makes this "error non-null
OR stderr non-empty". -/
def execFailed (res : ExecResult) : Bool :=
  res.error.isSome || !res.stderr.isEmpty

/-- `error ? error.message : 'Unknown error'` (lines 91 and 127). -/
def errorMessageOr (error : Option Str) : Str :=
  match error with
  | some m => m
  | none => "Unknown error".data

/-- One rendered decoration: the inline trailing text attached at the
end of a line. -/
structure Annot where
  line : Nat
  col : Nat
  text : Str
  color : Str
  deriving DecidableEq

/-- The two module-level decoration handles (`currentDecorationType`,
`errorDecorationType`, lines 6-7), each carrying the decorations set on
it; `none` models a disposed/absent handle. -/
structure EditorState where
  current : Option (List Annot)
  errDec : Option (List Annot)
  deriving DecidableEq

/-- Number of decorations visible on the editor. -/
def visCount (e : EditorState) : Nat :=
  (e.current.getD []).length + (e.errDec.getD []).length

/-- `clearOutput` (lines 62-73): empty both decoration sets and dispose
both handles. -/
def clearOutput (_e : EditorState) : EditorState :=
  { current := none, errDec := none }

/-- `displayInlineOutput` (lines 145-175): skip whitespace-only output,
otherwise clear the previous decoration, filter include lines, pick the
color, append the timing suffix (with `Error: ` prefix on the error
path), and set a single decoration at the end of the target line. -/
def displayInlineOutput (output : Str) (cfg : QuickCConfig) (docText : Str)
    (currentLine : Nat) (executionTime : Str) (isError : Bool)
    (e : EditorState) : EditorState :=
  if (trimStr output).isEmpty then e
  else
    let e1 := clearOutput e
    let cleanedOutput := cleanOutput output
    let color := if isError then "red".data else cfg.inlineColor.getD defaultInlineColor
    let formattedOutput :=
      if isError then "Error: ".data ++ cleanedOutput ++ timeSuffix executionTime
      else cleanedOutput ++ timeSuffix executionTime
    let targetLineLen := ((splitOnNl docText).getD currentLine []).length
    { e1 with
      current := some [{ line := currentLine, col := targetLineLen,
                         text := " // ".data ++ formattedOutput, color := color }] }

/-- `stderr.replace(tempFilePath, documentPath)` in `runCCode`
(line 90): a plain-string pattern, so only the first occurrence of the
temp path is rewritten. -/
def inlineRewriteError (dirname documentPath stderr : Str) : Str :=
  replaceFirstJs (tempFilePath dirname) documentPath stderr

/-- `stderr.replace(new RegExp(tempFilePath, 'g'), documentPath)` in
`runSelectedBlock` (line 125): every occurrence is rewritten. -/
def blockRewriteError (dirname documentPath stderr : Str) : Str :=
  replaceAllJs (blockTempFilePath dirname) documentPath stderr

/-- The string passed to `displayInlineOutput` on the error branch of
`runCCode` (line 91):
`` ` ${formattedError.trim() || (error ? error.message : 'Unknown error')}` ``. -/
def inlineErrMsg (dirname documentPath : Str) (res : ExecResult) : Str :=
  let formattedError := inlineRewriteError dirname documentPath res.stderr
  ' ' :: (if (trimStr formattedError).isEmpty then errorMessageOr res.error
          else trimStr formattedError)

/-- Result of a `runCCode` completion callback: the editor state after
display, and the filesystem after cleanup (`Except.error` when a
deletion threw). -/
structure InlineOutcome where
  editor : EditorState
  fsAfter : Except Str FS

/-- The `exec` completion callback of `runCCode` (lines 84-101):
classify via `error || stderr`, clear the previous output, display the
(path-rewritten, trimmed) error or trimmed stdout inline, then delete
the temp source and, if present, the temp binary. -/
def runCCodeCallback (dirname documentPath : Str) (cfg : QuickCConfig)
    (docText : Str) (currentLine : Nat) (res : ExecResult) (elapsedMs : Nat)
    (e : EditorState) (fs : FS) : InlineOutcome :=
  let executionTime := renderExecTime elapsedMs
  let e' :=
    if execFailed res then
      displayInlineOutput (inlineErrMsg dirname documentPath res) cfg docText
        currentLine executionTime true (clearOutput e)
    else
      displayInlineOutput (trimStr res.stdout) cfg docText currentLine
        executionTime false (clearOutput e)
  { editor := e',
    fsAfter := cleanupFiles fs (tempFilePath dirname) (outFilePath dirname) }

/-- The synchronous prefix of `runCCode` (lines 75-84): write the temp
source file and build the shell command
`` `${gccPath} "${temp}" -o "${out}" && "${out}"` ``. -/
def runCCodeStart (_code dirname : Str) (cfg : QuickCConfig) (fs : FS) :
    FS × Str :=
  let gccPath := cfg.gccPath.getD defaultGccPath
  let temp := tempFilePath dirname
  let out := outFilePath dirname
  (writeFileSync fs temp,
   gccPath ++ " \"".data ++ temp ++ "\" -o \"".data ++ out ++
     "\" && \"".data ++ out ++ "\"".data)

/-- How `runSelectedBlock` begins (lines 104-119): either the
no-selection error notification with the filesystem untouched and no
process spawned, or the temp block file written and the compile-and-run
command issued. -/
inductive BlockStart where
  | noSelection (message : Str) (fs : FS)
  | started (fs : FS) (cmd : Str)
  deriving DecidableEq

/-- The synchronous prefix of `runSelectedBlock` (lines 104-119):
reject an empty/whitespace-only selection with
`vscode.window.showErrorMessage('No C code selected to execute.')`,
otherwise write the block temp file and spawn the chained command. -/
def runSelectedBlockStart (selectedText dirname : Str) (cfg : QuickCConfig)
    (fs : FS) : BlockStart :=
  if (trimStr selectedText).isEmpty then
    .noSelection "No C code selected to execute.".data fs
  else
    let gccPath := cfg.gccPath.getD defaultGccPath
    let temp := blockTempFilePath dirname
    let out := blockOutFilePath dirname
    .started (writeFileSync fs temp)
      (gccPath ++ " \"".data ++ temp ++ "\" -o \"".data ++ out ++
        "\" && \"".data ++ out ++ "\"".data)

/-- The user-visible notification the block callback raises. -/
inductive BlockMsg where
  | errNotif (m : Str)
  | infoNotif (m : Str)
  deriving DecidableEq

/-- Result of a `runSelectedBlock` completion callback. -/
structure BlockOutcome where
  msg : BlockMsg
  editor : EditorState
  fsAfter : Except Str FS

/-- The `exec` completion callback of `runSelectedBlock`
(lines 119-142): on `error || stderr` clear the inline output and show
the globally path-rewritten, trimmed error as an error notification;
otherwise show the include-filtered, trimmed stdout as an information
notification; then delete both block temp files. -/
def runSelectedBlockCallback (dirname documentPath : Str) (res : ExecResult)
    (e : EditorState) (fs : FS) : BlockOutcome :=
  let m :=
    if execFailed res then
      let formattedError := blockRewriteError dirname documentPath res.stderr
      BlockMsg.errNotif (if (trimStr formattedError).isEmpty then
          errorMessageOr res.error
        else trimStr formattedError)
    else
      BlockMsg.infoNotif (trimStr (cleanOutput res.stdout))
  let e' := if execFailed res then clearOutput e else e
  { msg := m, editor := e',
    fsAfter := cleanupFiles fs (blockTempFilePath dirname)
      (blockOutFilePath dirname) }

/-! ## The debounce scheduler (module-level `timeout`, lines 8 and 40-42). -/

/-- The pending `setTimeout` handle: which editor and document snapshot
it will fire on and after how many milliseconds. -/
structure Pending where
  editorId : Nat
  doc : Str
  delayMs : Nat
  deriving DecidableEq

/-- The single module-level `timeout` variable (line 8): the whole
process holds at most this one pending invocation. -/
structure SchedState where
  timeout : Option Pending
  deriving DecidableEq

/-- `updateOutput` seen from the scheduler (lines 40-42 and 59):
`clearTimeout(timeout); timeout = setTimeout(..., defaultConfig.executionDelay)`.
The workspace configuration is in scope but is never consulted for the
delay — the literal `defaultConfig.executionDelay` is used. -/
def updateOutputSchedule (_cfg : QuickCConfig) (_g : SchedState)
    (editorId : Nat) (doc : Str) : SchedState :=
  { timeout := some { editorId := editorId, doc := doc,
                      delayMs := defaultExecutionDelay } }

/-- Firing the pending timer: the handle is consumed and the callback
body (`updateOutputFired`) runs on the captured editor's document. -/
def fireSched (g : SchedState) : SchedState × Option (Nat × FiredAction) :=
  match g.timeout with
  | none => (g, none)
  | some p => ({ timeout := none }, some (p.editorId, updateOutputFired p.doc))

/-- Following the spec's words (not the source): §6 lists
`executionDelay` (ms, default 300) as a recognized configuration
option, so the delay the spec announces is the configured value with
default 300.  Used only to compare the spec's reading with the code. -/
def specConfiguredDelay (cfg : QuickCConfig) : Nat :=
  cfg.executionDelay.getD 300

/-- Number of pending scheduled invocations in the whole process:
the single `timeout` variable holds zero or one. -/
def pendingCount (g : SchedState) : Nat := g.timeout.toList.length

/-- Effect of a fired debounce action on the editor's decorations: the
no-match branch calls `clearOutput`; the match branch hands off to
`runCCode` (whose display effect happens only in its own completion
callback, modelled separately by `runCCodeCallback`). -/
def applyFiredEditor (a : FiredAction) (e : EditorState) : EditorState :=
  match a with
  | .clear => clearOutput e
  | .run _ _ => e

/-- "`t` has no line beginning with the include marker". -/
def noIncludeLine (t : Str) : Prop :=
  ∀ l ∈ splitOnNl t, includeMarker.isPrefixOf l = false

/-- "`t` has no line whose trimmed form begins with the include
marker" — the stronger invariant the line filter establishes. -/
def noIncludeTrimLine (t : Str) : Prop :=
  ∀ l ∈ splitOnNl t, includeMarker.isPrefixOf (trimStr l) = false

/-- Editor-decoration states reachable through the extension's
operations, starting from activation (no decorations). -/
inductive ReachE : EditorState → Prop where
  | init : ReachE { current := none, errDec := none }
  | clear (e : EditorState) : ReachE e → ReachE (clearOutput e)
  | disp (out : Str) (cfg : QuickCConfig) (docText : Str) (line : Nat)
      (t : Str) (isErr : Bool) (e : EditorState) :
      ReachE e → ReachE (displayInlineOutput out cfg docText line t isErr e)
  | runCb (dirname documentPath : Str) (cfg : QuickCConfig) (docText : Str)
      (line : Nat) (res : ExecResult) (ms : Nat) (e : EditorState) (fs : FS) :
      ReachE e →
      ReachE (runCCodeCallback dirname documentPath cfg docText line res ms
        e fs).editor
  | blockCb (dirname documentPath : Str) (res : ExecResult) (e : EditorState)
      (fs : FS) :
      ReachE e →
      ReachE (runSelectedBlockCallback dirname documentPath res e fs).editor

/-! ## Theorems -/

/-- C1: For every completed compile-and-run invocation, in both the
inline and block pipelines, the result is classified as a failure if
and only if the captured stderr is non-empty or the process error is
non-null; a run that exited zero (null error) but wrote to stderr is a
failure, and a run with empty stderr and null error is a success.  The
classification drives the branch taken by both completion callbacks. -/
theorem c1_failure_iff_stderr_or_error (dirname documentPath : Str)
    (cfg : QuickCConfig) (docText : Str) (line : Nat) (res : ExecResult)
    (ms : Nat) (e : EditorState) (fs : FS) :
    (execFailed res = true ↔ (res.stderr ≠ [] ∨ res.error ≠ none))
    ∧ (res.error = none → res.stderr ≠ [] → execFailed res = true)
    ∧ (res.stderr = [] → res.error = none → execFailed res = false)
    ∧ ((∃ m, (runSelectedBlockCallback dirname documentPath res e fs).msg
          = .errNotif m) ↔ execFailed res = true)
    ∧ ((∃ m, (runSelectedBlockCallback dirname documentPath res e fs).msg
          = .infoNotif m) ↔ execFailed res = false)
    ∧ (execFailed res = true →
        (runCCodeCallback dirname documentPath cfg docText line res ms
            e fs).editor
          = displayInlineOutput (inlineErrMsg dirname documentPath res) cfg
              docText line (renderExecTime ms) true (clearOutput e))
    ∧ (execFailed res = false →
        (runCCodeCallback dirname documentPath cfg docText line res ms
            e fs).editor
          = displayInlineOutput (trimStr res.stdout) cfg docText line
              (renderExecTime ms) false (clearOutput e)) := by
  obtain ⟨err, out, serr⟩ := res
  refine ⟨?_, ?_, ?_, ?_, ?_, ?_, ?_⟩
  · cases err <;> cases serr <;> simp [execFailed]
  · intro h1 h2
    cases serr
    · exact absurd rfl h2
    · simp [execFailed]
  · intro h1 h2
    subst h1; subst h2; rfl
  · constructor
    · rintro ⟨m, hm⟩
      by_contra hf
      simp only [Bool.not_eq_true] at hf
      simp [runSelectedBlockCallback, hf] at hm
    · intro hf
      simp only [runSelectedBlockCallback, hf, if_true]
      exact ⟨_, rfl⟩
  · constructor
    · rintro ⟨m, hm⟩
      by_contra hf
      simp only [Bool.not_eq_false] at hf
      simp [runSelectedBlockCallback, hf] at hm
    · intro hf
      simp only [runSelectedBlockCallback, hf, if_false, Bool.false_eq_true]
      exact ⟨_, rfl⟩
  · intro hf
    simp [runCCodeCallback, hf]
  · intro hf
    simp [runCCodeCallback, hf]

/-- Witness for C1 at a concrete run: the process exited cleanly
(null error) but wrote a warning to stderr, and the run is classified
as a failure, surfaced by the block pipeline as an error notification. -/
theorem c1_failure_iff_stderr_or_error_witness :
    execFailed { error := none, stdout := "ok".data,
                 stderr := "warning: unused variable".data } = true
    ∧ (∃ m, (runSelectedBlockCallback "/ext".data "/home/user/main.c".data
        { error := none, stdout := "ok".data,
          stderr := "warning: unused variable".data }
        { current := none, errDec := none } []).msg = .errNotif m) := by
  have h := c1_failure_iff_stderr_or_error "/ext".data "/home/user/main.c".data
    { executionDelay := none, gccPath := none, inlineColor := none }
    [] 0
    { error := none, stdout := "ok".data,
      stderr := "warning: unused variable".data }
    0 { current := none, errDec := none } []
  refine ⟨h.2.1 rfl (by decide), h.2.2.2.1.mpr (h.2.1 rfl (by decide))⟩

/-- C10: The debounce timer is one process-wide mutable variable shared
by all editors: at most one scheduled invocation exists at any time in
the whole process, and a qualifying event on any editor replaces the
pending invocation even when it was scheduled for a different editor's
document. -/
theorem c10_single_process_wide_timer (cfg : QuickCConfig) (g : SchedState)
    (p : Pending) (ed : Nat) (doc : Str) :
    (∀ g' : SchedState, pendingCount g' ≤ 1)
    ∧ (updateOutputSchedule cfg g ed doc).timeout
        = some { editorId := ed, doc := doc, delayMs := defaultExecutionDelay }
    ∧ (g.timeout = some p → p.editorId ≠ ed →
        (updateOutputSchedule cfg g ed doc).timeout ≠ some p) := by
  refine ⟨?_, rfl, ?_⟩
  · intro g'
    obtain ⟨t⟩ := g'
    cases t <;> simp [pendingCount]
  · intro _ hne heq
    simp only [updateOutputSchedule, Option.some.injEq] at heq
    exact hne (congrArg Pending.editorId heq.symm)

/-- Witness for C10: with a run pending for editor 0, an event on
editor 1 leaves one pending run, the new one; the old one is gone. -/
theorem c10_single_process_wide_timer_witness :
    pendingCount ⟨some ⟨0, "a".data, 300⟩⟩ ≤ 1
    ∧ (updateOutputSchedule ⟨none, none, none⟩ ⟨some ⟨0, "a".data, 300⟩⟩
          1 "b".data).timeout
        ≠ some ⟨0, "a".data, 300⟩ := by
  have h := c10_single_process_wide_timer ⟨none, none, none⟩
    ⟨some ⟨0, "a".data, 300⟩⟩ ⟨0, "a".data, 300⟩ 1 "b".data
  exact ⟨h.1 _, h.2.2 rfl (by decide)⟩

/-- C6 (amended): on every qualifying editor event the outstanding
scheduled invocation is cancelled and a new one is scheduled after the
fixed `defaultConfig.executionDelay` of 300 ms — the workspace
configuration is not consulted for the delay — so a rapid sequence of
events fires exactly one pipeline execution, with the document state of
the last event. -/
theorem c6_debounce_last_event_wins (cfg : QuickCConfig) (g : SchedState)
    (es : List (Nat × Str)) (ed : Nat) (doc : Str) :
    ((es ++ [(ed, doc)]).foldl
        (fun s ev => updateOutputSchedule cfg s ev.1 ev.2) g).timeout
      = some { editorId := ed, doc := doc, delayMs := defaultExecutionDelay }
    ∧ defaultExecutionDelay = 300
    ∧ (fireSched ((es ++ [(ed, doc)]).foldl
          (fun s ev => updateOutputSchedule cfg s ev.1 ev.2) g)).2
        = some (ed, updateOutputFired doc)
    ∧ (fireSched ((es ++ [(ed, doc)]).foldl
          (fun s ev => updateOutputSchedule cfg s ev.1 ev.2) g)).1.timeout
        = none := by
  have hfold : ((es ++ [(ed, doc)]).foldl
      (fun s ev => updateOutputSchedule cfg s ev.1 ev.2) g)
      = ⟨some ⟨ed, doc, defaultExecutionDelay⟩⟩ := by
    rw [List.foldl_append]
    rfl
  rw [hfold]
  exact ⟨rfl, rfl, rfl, rfl⟩

/-- Counterexample for C6 as stated: the claim says the new invocation
is scheduled after the configured `executionDelay`; with the user
setting `executionDelay` to 500 ms the code still schedules after the
hard-coded 300 ms default — `updateOutput` never reads the
configuration for the delay. -/
theorem c6_configured_delay_cex :
    ((updateOutputSchedule
        { executionDelay := some 500, gccPath := none, inlineColor := none }
        { timeout := none } 0 "printf".data).timeout.map Pending.delayMs)
      = some 300
    ∧ specConfiguredDelay
        { executionDelay := some 500, gccPath := none, inlineColor := none }
      = 500
    ∧ ((updateOutputSchedule
        { executionDelay := some 500, gccPath := none, inlineColor := none }
        { timeout := none } 0 "printf".data).timeout.map Pending.delayMs)
      ≠ some (specConfiguredDelay
        { executionDelay := some 500, gccPath := none, inlineColor := none }) := by
  refine ⟨rfl, rfl, by decide⟩

/-- The shared cleanup epilogue succeeds and removes both temp files
whenever the temp source still exists when the callback runs. -/
theorem cleanupFiles_ok (fs : FS) (src out : Str) (h : src ∈ fs) :
    ∃ fs', cleanupFiles fs src out = .ok fs' ∧ src ∉ fs' ∧ out ∉ fs' := by
  have hsrc : unlinkSync fs src = .ok (fs.filter (fun q => q ≠ src)) := by
    unfold unlinkSync
    rw [if_pos h]
  have hsrcout : ∀ x ∈ fs.filter (fun q => q ≠ src), x ≠ src := by
    intro x hx
    have := (List.mem_filter.mp hx).2
    simpa using this
  unfold cleanupFiles
  rw [hsrc]
  by_cases hout : out ∈ fs.filter (fun q => q ≠ src)
  · have hul : unlinkSync (fs.filter (fun q => q ≠ src)) out
        = .ok ((fs.filter (fun q => q ≠ src)).filter (fun q => q ≠ out)) := by
      unfold unlinkSync
      rw [if_pos hout]
    have hex : existsSyncFs (fs.filter (fun q => q ≠ src)) out = true := by
      unfold existsSyncFs
      exact decide_eq_true hout
    simp only [hex, if_true, hul]
    refine ⟨_, rfl, ?_, ?_⟩
    · intro hmem
      exact hsrcout _ (List.mem_filter.mp hmem).1 rfl
    · intro hmem
      have h2 := (List.mem_filter.mp hmem).2
      simp at h2
  · have hex : existsSyncFs (fs.filter (fun q => q ≠ src)) out = false := by
      unfold existsSyncFs
      simpa using hout
    simp only [hex, if_false, Bool.false_eq_true]
    refine ⟨_, rfl, ?_, hout⟩
    intro hmem
    exact hsrcout _ hmem rfl

/-- C2 (amended): for every invocation of either pipeline that reaches
its completion callback, if the temp source file still exists at that
point the cleanup removes it and the temp binary, so that afterwards
neither temp file of that invocation's kind exists; but deletion is an
unguarded synchronous `unlinkSync` — when the temp source is already
gone the deletion throws, the error propagates out of the callback,
nothing is logged, and the binary deletion is skipped. -/
theorem c2_cleanup_removes_temp_files (dirname docPath : Str)
    (cfg : QuickCConfig) (docText : Str) (line : Nat) (res : ExecResult)
    (ms : Nat) (e : EditorState) (fs fs2 : FS) :
    (tempFilePath dirname ∈ fs →
      ∃ fs', (runCCodeCallback dirname docPath cfg docText line res ms
            e fs).fsAfter = .ok fs'
        ∧ tempFilePath dirname ∉ fs' ∧ outFilePath dirname ∉ fs')
    ∧ (blockTempFilePath dirname ∈ fs2 →
      ∃ fs', (runSelectedBlockCallback dirname docPath res e fs2).fsAfter
          = .ok fs'
        ∧ blockTempFilePath dirname ∉ fs' ∧ blockOutFilePath dirname ∉ fs') := by
  constructor
  · intro h
    exact cleanupFiles_ok fs (tempFilePath dirname) (outFilePath dirname) h
  · intro h
    exact cleanupFiles_ok fs2 (blockTempFilePath dirname)
      (blockOutFilePath dirname) h

/-- Witness for C2 at a concrete invocation: both temp files exist when
the callback runs, and afterwards neither does. -/
theorem c2_cleanup_removes_temp_files_witness :
    ∃ fs', (runCCodeCallback "/ext".data "/home/user/main.c".data
        { executionDelay := none, gccPath := none, inlineColor := none }
        [] 0 { error := none, stdout := "hi".data, stderr := [] } 10
        { current := none, errDec := none }
        ["/ext/quickc.c".data, "/ext/quickc.out".data]).fsAfter = .ok fs'
      ∧ tempFilePath "/ext".data ∉ fs' ∧ outFilePath "/ext".data ∉ fs' :=
  (c2_cleanup_removes_temp_files "/ext".data "/home/user/main.c".data
    { executionDelay := none, gccPath := none, inlineColor := none }
    [] 0 { error := none, stdout := "hi".data, stderr := [] } 10
    { current := none, errDec := none }
    ["/ext/quickc.c".data, "/ext/quickc.out".data] []).1 (by decide)

/-- Counterexample for C2 as stated: the claim says deletion failures
are logged and never propagated, but `fs.unlinkSync` is called without
any guard — when the temp source is already gone (the two pipelines
share fixed paths, so an overlapping run can have deleted it) the
deletion throws and the error escapes the completion callback. -/
theorem c2_unlink_failure_propagates_cex :
    ((runCCodeCallback "/ext".data "/home/user/main.c".data
        { executionDelay := none, gccPath := none, inlineColor := none }
        [] 0 { error := none, stdout := "hi".data, stderr := [] } 10
        { current := none, errDec := none } []).fsAfter).isOk = false := by
  decide

/-- C7: invoking the block-execution command with an empty or
whitespace-only selection shows the error notification
"No C code selected to execute.", attempts no compilation, and leaves
the filesystem unchanged (no temp files are created). -/
theorem c7_empty_selection_rejected (selectedText dirname : Str)
    (cfg : QuickCConfig) (fs : FS)
    (h : (trimStr selectedText).isEmpty = true) :
    runSelectedBlockStart selectedText dirname cfg fs
      = .noSelection "No C code selected to execute.".data fs := by
  simp [runSelectedBlockStart, h]

/-- Whitespace-only output makes `displayInlineOutput` return without
touching the editor. -/
theorem displayInlineOutput_empty (out : Str) (cfg : QuickCConfig)
    (docText : Str) (line : Nat) (t : Str) (isErr : Bool) (e : EditorState)
    (hemp : (trimStr out).isEmpty = true) :
    displayInlineOutput out cfg docText line t isErr e = e := by
  unfold displayInlineOutput
  rw [if_pos hemp]

/-- Non-whitespace output makes `displayInlineOutput` replace the
editor's decorations with exactly one new annotation. -/
theorem displayInlineOutput_nonempty (out : Str) (cfg : QuickCConfig)
    (docText : Str) (line : Nat) (t : Str) (isErr : Bool) (e : EditorState)
    (hemp : (trimStr out).isEmpty = false) :
    displayInlineOutput out cfg docText line t isErr e
      = ⟨some [⟨line, ((splitOnNl docText).getD line []).length,
          " // ".data ++ (if isErr then
              "Error: ".data ++ cleanOutput out ++ timeSuffix t
            else cleanOutput out ++ timeSuffix t),
          if isErr then "red".data
            else cfg.inlineColor.getD defaultInlineColor⟩], none⟩ := by
  unfold displayInlineOutput
  rw [if_neg (by simp [hemp])]
  rfl

/-- Both branches of the `runCCode` completion callback set the editor
by one `displayInlineOutput` call on the cleared editor. -/
theorem runCCodeCallback_editor (dirname docPath : Str) (cfg : QuickCConfig)
    (docText : Str) (line : Nat) (res : ExecResult) (ms : Nat)
    (e : EditorState) (fs : FS) :
    (runCCodeCallback dirname docPath cfg docText line res ms e fs).editor
      = displayInlineOutput
          (if execFailed res then inlineErrMsg dirname docPath res
            else trimStr res.stdout)
          cfg docText line (renderExecTime ms) (execFailed res)
          (clearOutput e) := by
  unfold runCCodeCallback
  by_cases hf : execFailed res = true
  · simp [hf]
  · simp only [Bool.not_eq_true] at hf
    simp [hf]

/-- One display on a cleared editor leaves at most one decoration. -/
theorem visCount_display_cleared_le_one (out : Str) (cfg : QuickCConfig)
    (docText : Str) (line : Nat) (t : Str) (isErr : Bool) (e : EditorState) :
    visCount (displayInlineOutput out cfg docText line t isErr
      (clearOutput e)) ≤ 1 := by
  by_cases hemp : (trimStr out).isEmpty = true
  · rw [displayInlineOutput_empty _ _ _ _ _ _ _ hemp]
    simp [clearOutput, visCount]
  · rw [displayInlineOutput_nonempty _ _ _ _ _ _ _ (by simpa using hemp)]
    simp [visCount]

/-- C4: at most one annotation is visible per editor in every reachable
editor state; whitespace-only output renders nothing; a non-empty
render replaces the previous decorations with exactly one annotation
(the old handles are dropped); and a success run with whitespace-only
stdout leaves the editor with no annotation at all. -/
theorem c4_at_most_one_visible :
    (∀ e, ReachE e → visCount e ≤ 1)
    ∧ (∀ out cfg docText line t isErr e, (trimStr out).isEmpty = true →
        displayInlineOutput out cfg docText line t isErr e = e)
    ∧ (∀ out cfg docText line t isErr e, (trimStr out).isEmpty = false →
        (displayInlineOutput out cfg docText line t isErr e).errDec = none
        ∧ ∃ a, (displayInlineOutput out cfg docText line t isErr e).current
            = some [a])
    ∧ (∀ dirname docPath cfg docText line res ms e fs,
        execFailed res = false → (trimStr res.stdout).isEmpty = true →
        (runCCodeCallback dirname docPath cfg docText line res ms
            e fs).editor = ⟨none, none⟩) := by
  refine ⟨?_, ?_, ?_, ?_⟩
  · intro e h
    induction h with
    | init => simp [visCount]
    | clear e' _ _ => simp [clearOutput, visCount]
    | disp out cfg docText line t isErr e' _ ih =>
      by_cases hemp : (trimStr out).isEmpty = true
      · rw [displayInlineOutput_empty _ _ _ _ _ _ _ hemp]
        exact ih
      · rw [displayInlineOutput_nonempty _ _ _ _ _ _ _ (by simpa using hemp)]
        simp [visCount]
    | runCb dirname docPath cfg docText line res ms e' fs _ _ =>
      rw [runCCodeCallback_editor]
      exact visCount_display_cleared_le_one _ _ _ _ _ _ _
    | blockCb dirname docPath res e' fs _ ih =>
      have hed : (runSelectedBlockCallback dirname docPath res e' fs).editor
          = if execFailed res then clearOutput e' else e' := rfl
      rw [hed]
      by_cases hf : execFailed res = true
      · simp [hf, clearOutput, visCount]
      · simp only [Bool.not_eq_true] at hf
        simpa [hf] using ih
  · intro out cfg docText line t isErr e h
    exact displayInlineOutput_empty _ _ _ _ _ _ _ h
  · intro out cfg docText line t isErr e h
    rw [displayInlineOutput_nonempty _ _ _ _ _ _ _ h]
    exact ⟨rfl, _, rfl⟩
  · intro dirname docPath cfg docText line res ms e fs hf hemp
    rw [runCCodeCallback_editor, hf]
    have htr : trimStr res.stdout = [] := by simpa using hemp
    simp only [Bool.false_eq_true, if_false]
    rw [htr, displayInlineOutput_empty ([] : Str) cfg docText line
      (renderExecTime ms) false (clearOutput e) rfl]
    rfl

/-- Witness for C4 at concrete states: the initial state has at most
one visible annotation; a whitespace-only display leaves a decorated
editor unchanged; a non-empty display yields exactly one annotation;
and a success run with whitespace-only stdout clears everything. -/
theorem c4_at_most_one_visible_witness :
    visCount ⟨none, none⟩ ≤ 1
    ∧ displayInlineOutput "  \n ".data ⟨none, none, none⟩ "x".data 0
        "0.01".data false ⟨some [⟨0, 0, "old".data, "grey".data⟩], none⟩
      = ⟨some [⟨0, 0, "old".data, "grey".data⟩], none⟩
    ∧ (runCCodeCallback "/ext".data "/home/user/main.c".data
        ⟨none, none, none⟩ "x".data 0
        { error := none, stdout := "   ".data, stderr := [] } 7
        ⟨some [⟨0, 0, "old".data, "grey".data⟩], none⟩ []).editor
      = ⟨none, none⟩ := by
  refine ⟨c4_at_most_one_visible.1 _ ReachE.init, ?_, ?_⟩
  · exact c4_at_most_one_visible.2.1 "  \n ".data ⟨none, none, none⟩ "x".data
      0 "0.01".data false ⟨some [⟨0, 0, "old".data, "grey".data⟩], none⟩
      (by decide)
  · exact c4_at_most_one_visible.2.2.2 "/ext".data "/home/user/main.c".data
      ⟨none, none, none⟩ "x".data 0
      { error := none, stdout := "   ".data, stderr := [] } 7
      ⟨some [⟨0, 0, "old".data, "grey".data⟩], none⟩ [] (by decide) (by decide)

/-- Leading trim produces either the empty string or a string headed
by a non-whitespace character. -/
theorem trimStartStr_head (s : Str) :
    trimStartStr s = []
      ∨ ∃ c v, trimStartStr s = c :: v ∧ isJsWs c = false := by
  induction s with
  | nil => exact .inl rfl
  | cons c rest ih =>
    by_cases hc : isJsWs c = true
    · simpa [trimStartStr, hc] using ih
    · exact .inr ⟨c, rest, by simp [trimStartStr, hc],
        by simpa using hc⟩

/-- Trailing trim keeps a non-whitespace head. -/
theorem trimEndStr_cons_of_not_ws (c : Char) (v : Str)
    (hc : isJsWs c = false) :
    trimEndStr (c :: v) = c :: trimEndStr v := by
  simp only [trimEndStr]
  simp [hc]

/-- Trailing trim is idempotent. -/
theorem trimEndStr_idem (s : Str) :
    trimEndStr (trimEndStr s) = trimEndStr s := by
  induction s with
  | nil => rfl
  | cons c rest ih =>
    by_cases h : ((trimEndStr rest).isEmpty && isJsWs c) = true
    · simp only [trimEndStr]
      rw [if_pos h]
      rfl
    · simp only [trimEndStr]
      rw [if_neg h]
      simp only [trimEndStr, ih]
      rw [if_neg h]

/-- JS `trim` is idempotent. -/
theorem trimStr_idem (s : Str) : trimStr (trimStr s) = trimStr s := by
  unfold trimStr
  rcases trimStartStr_head s with h | ⟨c, v, heq, hc⟩
  · rw [h]
    rfl
  · rw [heq, trimEndStr_cons_of_not_ws c v hc]
    have h2 : trimStartStr (c :: trimEndStr v) = c :: trimEndStr v := by
      simp [trimStartStr, hc]
    rw [h2, trimEndStr_cons_of_not_ws c (trimEndStr v) hc, trimEndStr_idem]

/-- C8: a successful whole-document run renders the cleaned stdout
followed by the execution-time suffix ` (Execution Time: <t>s)` (after
the inline `// ` sigil) in the configured default color; a failing run
renders the text with the `Error: ` prefix in red; the execution time
is always rendered with exactly two digits after the decimal point. -/
theorem c8_inline_annotation_format (dirname docPath : Str)
    (cfg : QuickCConfig) (docText : Str) (line : Nat) (res : ExecResult)
    (ms : Nat) (e : EditorState) (fs : FS) :
    (execFailed res = false → (trimStr res.stdout).isEmpty = false →
      (runCCodeCallback dirname docPath cfg docText line res ms
          e fs).editor.current
        = some [⟨line, ((splitOnNl docText).getD line []).length,
            " // ".data ++ (cleanOutput (trimStr res.stdout)
              ++ timeSuffix (renderExecTime ms)),
            cfg.inlineColor.getD defaultInlineColor⟩])
    ∧ (execFailed res = true →
        (trimStr (inlineErrMsg dirname docPath res)).isEmpty = false →
      (runCCodeCallback dirname docPath cfg docText line res ms
          e fs).editor.current
        = some [⟨line, ((splitOnNl docText).getD line []).length,
            " // ".data ++ ("Error: ".data
              ++ cleanOutput (inlineErrMsg dirname docPath res)
              ++ timeSuffix (renderExecTime ms)),
            "red".data⟩])
    ∧ (∃ ip d1 d2, renderExecTime ms = ip ++ '.' :: [d1, d2]
        ∧ d1.isDigit = true ∧ d2.isDigit = true) := by
  refine ⟨?_, ?_, ?_⟩
  · intro hf hne
    rw [runCCodeCallback_editor, hf]
    simp only [Bool.false_eq_true, if_false]
    have hne' : (trimStr (trimStr res.stdout)).isEmpty = false := by
      rw [trimStr_idem]
      exact hne
    rw [displayInlineOutput_nonempty _ _ _ _ _ _ _ hne']
    simp only [Bool.false_eq_true, if_false]
  · intro hf hne
    rw [runCCodeCallback_editor, hf]
    simp only [if_true]
    rw [displayInlineOutput_nonempty _ _ _ _ _ _ _ hne]
    simp only [if_true]
  · have h10 : ∀ n, n < 10 → (Nat.digitChar n).isDigit = true := by decide
    exact ⟨Nat.toDigits 10 (((ms + 5) / 10) / 100), _, _, rfl,
      h10 _ (Nat.mod_lt _ (by norm_num)),
      h10 _ (Nat.mod_lt _ (by norm_num))⟩

/-- Witness for C8 at a concrete successful run: stdout `hi`, elapsed
34 ms, default color — the annotation reads
` // hi (Execution Time: 0.03s)` in grey. -/
theorem c8_inline_annotation_format_witness :
    (runCCodeCallback "/ext".data "/home/user/main.c".data
        ⟨none, none, none⟩ "printf".data 0
        { error := none, stdout := "hi\n".data, stderr := [] } 34
        ⟨none, none⟩ []).editor.current
      = some [⟨0, 6, " // hi (Execution Time: 0.03s)".data, "grey".data⟩] := by
  have h := (c8_inline_annotation_format "/ext".data "/home/user/main.c".data
    ⟨none, none, none⟩ "printf".data 0
    { error := none, stdout := "hi\n".data, stderr := [] } 34
    ⟨none, none⟩ []).1 (by decide) (by decide)
  rw [h]
  decide

/-- The global-replace worker does not depend on the fuel, as long as
the fuel covers the input length. -/
theorem replaceAllAux_fuel (pat repl : Str) :
    ∀ f1 f2 s, s.length ≤ f1 → s.length ≤ f2 →
      replaceAllAux pat repl f1 s = replaceAllAux pat repl f2 s := by
  intro f1
  induction f1 with
  | zero =>
    intro f2 s h1 _
    have hs : s = [] := List.eq_nil_of_length_eq_zero (Nat.le_zero.mp h1)
    subst hs
    simp [replaceAllAux]
  | succ g ih =>
    intro f2 s h1 h2
    cases s with
    | nil => simp [replaceAllAux]
    | cons c rest =>
      cases f2 with
      | zero => simp at h2
      | succ h =>
        simp only [replaceAllAux]
        by_cases hcond : (!pat.isEmpty && pat.isPrefixOf (c :: rest)) = true
        · rw [if_pos hcond, if_pos hcond]
          have hplen : 0 < pat.length := by
            have hne : pat.isEmpty = false := by
              have := (Bool.and_eq_true _ _).mp hcond
              simpa using this.1
            cases pat with
            | nil => simp at hne
            | cons p ps => simp
          have hlen : ((c :: rest).drop pat.length).length ≤ rest.length := by
            simp only [List.length_drop, List.length_cons]
            omega
          have hgl : rest.length ≤ g := by
            simpa using Nat.lt_succ_iff.mp (Nat.lt_of_lt_of_le
              (Nat.lt_succ_of_le (Nat.le_refl _)) h1)
          have hhl : rest.length ≤ h := by
            simpa using Nat.lt_succ_iff.mp (Nat.lt_of_lt_of_le
              (Nat.lt_succ_of_le (Nat.le_refl _)) h2)
          exact congrArg (repl ++ ·)
            (ih h _ (Nat.le_trans hlen hgl) (Nat.le_trans hlen hhl))
        · rw [if_neg hcond, if_neg hcond]
          have hgl : rest.length ≤ g := by
            simp only [List.length_cons] at h1
            omega
          have hhl : rest.length ≤ h := by
            simp only [List.length_cons] at h2
            omega
          exact congrArg (c :: ·) (ih h rest hgl hhl)

/-- The occurrence-count worker does not depend on the fuel either. -/
theorem occCountAux_fuel (pat : Str) :
    ∀ f1 f2 s, s.length ≤ f1 → s.length ≤ f2 →
      occCountAux pat f1 s = occCountAux pat f2 s := by
  intro f1
  induction f1 with
  | zero =>
    intro f2 s h1 _
    have hs : s = [] := List.eq_nil_of_length_eq_zero (Nat.le_zero.mp h1)
    subst hs
    simp [occCountAux]
  | succ g ih =>
    intro f2 s h1 h2
    cases s with
    | nil => simp [occCountAux]
    | cons c rest =>
      cases f2 with
      | zero => simp at h2
      | succ h =>
        simp only [occCountAux]
        by_cases hcond : (!pat.isEmpty && pat.isPrefixOf (c :: rest)) = true
        · rw [if_pos hcond, if_pos hcond]
          have hplen : 0 < pat.length := by
            have hne : pat.isEmpty = false := by
              have := (Bool.and_eq_true _ _).mp hcond
              simpa using this.1
            cases pat with
            | nil => simp at hne
            | cons p ps => simp
          have hlen : ((c :: rest).drop pat.length).length ≤ rest.length := by
            simp only [List.length_drop, List.length_cons]
            omega
          have hgl : rest.length ≤ g := by
            simp only [List.length_cons] at h1
            omega
          have hhl : rest.length ≤ h := by
            simp only [List.length_cons] at h2
            omega
          exact congrArg (· + 1)
            (ih h _ (Nat.le_trans hlen hgl) (Nat.le_trans hlen hhl))
        · rw [if_neg hcond, if_neg hcond]
          have hgl : rest.length ≤ g := by
            simp only [List.length_cons] at h1
            omega
          have hhl : rest.length ≤ h := by
            simp only [List.length_cons] at h2
            omega
          exact ih h rest hgl hhl

/-- One-step unfolding of the global replace. -/
theorem replaceAllJs_cons (pat repl : Str) (c : Char) (rest : Str) :
    replaceAllJs pat repl (c :: rest)
      = if !pat.isEmpty && pat.isPrefixOf (c :: rest) then
          repl ++ replaceAllJs pat repl ((c :: rest).drop pat.length)
        else c :: replaceAllJs pat repl rest := by
  unfold replaceAllJs
  simp only [List.length_cons, replaceAllAux]
  by_cases hcond : (!pat.isEmpty && pat.isPrefixOf (c :: rest)) = true
  · rw [if_pos hcond, if_pos hcond]
    congr 1
    have hplen : 0 < pat.length := by
      have hne : pat.isEmpty = false := by
        have := (Bool.and_eq_true _ _).mp hcond
        simpa using this.1
      cases pat with
      | nil => simp at hne
      | cons p ps => simp
    have hlen : ((c :: rest).drop pat.length).length ≤ rest.length := by
      simp only [List.length_drop, List.length_cons]
      omega
    exact replaceAllAux_fuel pat repl rest.length _ _ hlen (Nat.le_refl _)
  · rw [if_neg hcond, if_neg hcond]

/-- One-step unfolding of the occurrence count. -/
theorem occCountJs_cons (pat : Str) (c : Char) (rest : Str) :
    occCountJs pat (c :: rest)
      = if !pat.isEmpty && pat.isPrefixOf (c :: rest) then
          occCountJs pat ((c :: rest).drop pat.length) + 1
        else occCountJs pat rest := by
  unfold occCountJs
  simp only [List.length_cons, occCountAux]
  by_cases hcond : (!pat.isEmpty && pat.isPrefixOf (c :: rest)) = true
  · rw [if_pos hcond, if_pos hcond]
    congr 1
    have hplen : 0 < pat.length := by
      have hne : pat.isEmpty = false := by
        have := (Bool.and_eq_true _ _).mp hcond
        simpa using this.1
      cases pat with
      | nil => simp at hne
      | cons p ps => simp
    have hlen : ((c :: rest).drop pat.length).length ≤ rest.length := by
      simp only [List.length_drop, List.length_cons]
      omega
    exact occCountAux_fuel pat rest.length _ _ hlen (Nat.le_refl _)
  · rw [if_neg hcond, if_neg hcond]

/-- A string with no occurrence of the pattern is left unchanged by
the global replace. -/
theorem replaceAllJs_of_occCount_zero (pat repl : Str) :
    ∀ s, occCountJs pat s = 0 → replaceAllJs pat repl s = s := by
  intro s
  induction s with
  | nil =>
    intro _
    rfl
  | cons c rest ih =>
    intro hocc
    by_cases hcond : (!pat.isEmpty && pat.isPrefixOf (c :: rest)) = true
    · rw [occCountJs_cons, if_pos hcond] at hocc
      simp at hocc
    · rw [occCountJs_cons, if_neg hcond] at hocc
      rw [replaceAllJs_cons, if_neg hcond, ih hocc]

/-- When the pattern occurs at most once, replacing the first
occurrence and replacing every occurrence coincide. -/
theorem replaceFirst_eq_replaceAll (pat repl : Str)
    (hpat : pat.isEmpty = false) :
    ∀ s, occCountJs pat s ≤ 1 → replaceFirstJs pat repl s = replaceAllJs pat repl s := by
  intro s
  induction s with
  | nil =>
    intro _
    simp [replaceFirstJs, replaceAllJs, replaceAllAux, hpat]
  | cons c rest ih =>
    intro hocc
    by_cases hpre : pat.isPrefixOf (c :: rest) = true
    · have hcond : (!pat.isEmpty && pat.isPrefixOf (c :: rest)) = true := by
        simp [hpat, hpre]
      rw [replaceAllJs_cons, if_pos hcond]
      have hocc' : occCountJs pat ((c :: rest).drop pat.length) = 0 := by
        rw [occCountJs_cons, if_pos hcond] at hocc
        omega
      rw [replaceAllJs_of_occCount_zero pat repl _ hocc']
      simp [replaceFirstJs, hpre]
    · have hcond : (!pat.isEmpty && pat.isPrefixOf (c :: rest)) = false := by
        simp [hpre]
      rw [replaceAllJs_cons, if_neg (by simp [hcond])]
      rw [occCountJs_cons, if_neg (by simp [hcond])] at hocc
      simp only [replaceFirstJs, hpre, Bool.false_eq_true, if_false]
      rw [ih hocc]

/-- The fixed temp-file paths are never empty strings. -/
theorem tempFilePath_not_empty (dirname : Str) :
    (tempFilePath dirname).isEmpty = false := by
  cases dirname <;> rfl

/-- The block temp path is never the empty string either. -/
theorem blockTempFilePath_not_empty (dirname : Str) :
    (blockTempFilePath dirname).isEmpty = false := by
  cases dirname <;> rfl

/-- C9 (amended): in the block pipeline every occurrence of the temp
source path in the error message is rewritten to the document's path;
in the inline pipeline only the first occurrence is rewritten, so the
two rewrites coincide exactly when the message mentions the temp path
at most once — an inline message with two or more mentions keeps the
later ones. -/
theorem c9_path_rewrite (dirname docPath stderr : Str) :
    (occCountJs (tempFilePath dirname) stderr ≤ 1 →
      inlineRewriteError dirname docPath stderr
        = replaceAllJs (tempFilePath dirname) docPath stderr)
    ∧ blockRewriteError dirname docPath stderr
        = replaceAllJs (blockTempFilePath dirname) docPath stderr := by
  constructor
  · intro hocc
    exact replaceFirst_eq_replaceAll _ _ (tempFilePath_not_empty dirname)
      stderr hocc
  · rfl

/-- Witness for C9 at a concrete single-occurrence error message: the
inline rewrite equals the global rewrite, and both replace the temp
path with the document path. -/
theorem c9_path_rewrite_witness :
    inlineRewriteError "/ext".data "/home/user/main.c".data
        "/ext/quickc.c:3:1: error: expected declaration".data
      = replaceAllJs (tempFilePath "/ext".data) "/home/user/main.c".data
          "/ext/quickc.c:3:1: error: expected declaration".data
    ∧ inlineRewriteError "/ext".data "/home/user/main.c".data
        "/ext/quickc.c:3:1: error: expected declaration".data
      = "/home/user/main.c:3:1: error: expected declaration".data := by
  constructor
  · exact (c9_path_rewrite "/ext".data "/home/user/main.c".data
      "/ext/quickc.c:3:1: error: expected declaration".data).1 (by decide)
  · decide

/-- Counterexample for C9 as stated: with a compiler message that
mentions the temp path twice, the inline pipeline's rewritten message
still contains the temp path (only the first occurrence was replaced,
since `String.replace` with a plain-string pattern replaces one
occurrence), while the block pipeline's global rewrite removes both. -/
theorem c9_first_occurrence_only_cex :
    containsSub (tempFilePath "/ext".data)
        (inlineRewriteError "/ext".data "/home/user/main.c".data
          "/ext/quickc.c:1:1: error: a\n/ext/quickc.c:2:1: error: b".data)
      = true
    ∧ containsSub (blockTempFilePath "/ext".data)
        (blockRewriteError "/ext".data "/home/user/main.c".data
          "/ext/quickc_block.c:1:1: error: a\n/ext/quickc_block.c:2:1: error: b".data)
      = false := by
  decide

/-- Splitting on newlines always yields at least one chunk. -/
theorem splitOnNl_ne_nil (s : Str) : splitOnNl s ≠ [] := by
  cases s with
  | nil => simp [splitOnNl]
  | cons c rest =>
    by_cases hc : c = '\n'
    · simp [splitOnNl, hc]
    · simp only [splitOnNl, hc, if_false]
      cases splitOnNl rest <;> simp

/-- Unfolding: a leading newline opens an empty first line. -/
theorem splitOnNl_cons_nl (s : Str) :
    splitOnNl ('\n' :: s) = [] :: splitOnNl s := by
  simp [splitOnNl]

/-- Unfolding: any other leading character extends the first line. -/
theorem splitOnNl_cons_not_nl (c : Char) (s : Str) (hc : c ≠ '\n') :
    splitOnNl (c :: s)
      = (c :: (splitOnNl s).headD []) :: (splitOnNl s).tail := by
  cases h : splitOnNl s with
  | nil => exact absurd h (splitOnNl_ne_nil s)
  | cons x xs => simp [splitOnNl, hc, h]

/-- No chunk produced by the newline split contains a newline. -/
theorem not_nl_mem_of_mem_splitOnNl (s : Str) :
    ∀ l ∈ splitOnNl s, '\n' ∉ l := by
  induction s with
  | nil =>
    intro l hl
    simp [splitOnNl] at hl
    simp [hl]
  | cons c rest ih =>
    intro l hl
    by_cases hc : c = '\n'
    · subst hc
      rw [splitOnNl_cons_nl] at hl
      rcases List.mem_cons.mp hl with h | h
      · simp [h]
      · exact ih l h
    · rw [splitOnNl_cons_not_nl c rest hc] at hl
      cases hrest : splitOnNl rest with
      | nil => exact absurd hrest (splitOnNl_ne_nil rest)
      | cons x xs =>
        rw [hrest] at hl
        rcases List.mem_cons.mp hl with h | h
        · subst h
          intro hmem
          rcases List.mem_cons.mp hmem with h' | h'
          · exact hc h'.symm
          · exact ih x (by simp [hrest]) h'
        · exact ih l (by
            rw [hrest]
            exact List.mem_cons_of_mem _ (by simpa using h))

/-- Every character of a chunk of the newline split is a character of
the split string. -/
theorem mem_of_mem_splitOnNl (s : Str) :
    ∀ l ∈ splitOnNl s, ∀ x ∈ l, x ∈ s := by
  induction s with
  | nil =>
    intro l hl x hx
    simp [splitOnNl] at hl
    subst hl
    simp at hx
  | cons c rest ih =>
    intro l hl x hx
    by_cases hc : c = '\n'
    · subst hc
      rw [splitOnNl_cons_nl] at hl
      rcases List.mem_cons.mp hl with h | h
      · subst h
        simp at hx
      · exact List.mem_cons_of_mem _ (ih l h x hx)
    · rw [splitOnNl_cons_not_nl c rest hc] at hl
      cases hrest : splitOnNl rest with
      | nil => exact absurd hrest (splitOnNl_ne_nil rest)
      | cons y ys =>
        rw [hrest] at hl
        rcases List.mem_cons.mp hl with h | h
        · subst h
          rcases List.mem_cons.mp hx with h' | h'
          · exact h' ▸ List.mem_cons_self _ _
          · exact List.mem_cons_of_mem _ (ih y (by simp [hrest]) x h')
        · exact List.mem_cons_of_mem _
            (ih l (by
              rw [hrest]
              exact List.mem_cons_of_mem _ (by simpa using h)) x hx)

/-- A newline-free string is a single chunk. -/
theorem splitOnNl_of_not_mem (a : Str) (h : '\n' ∉ a) :
    splitOnNl a = [a] := by
  induction a with
  | nil => rfl
  | cons c rest ih =>
    have hc : c ≠ '\n' := fun hc => h (hc ▸ List.mem_cons_self _ _)
    have hrest : '\n' ∉ rest := fun hm => h (List.mem_cons_of_mem _ hm)
    rw [splitOnNl_cons_not_nl c rest hc, ih hrest]
    rfl

/-- Prepending a newline-free chunk and a newline prepends one line. -/
theorem splitOnNl_append_nl (a s : Str) (h : '\n' ∉ a) :
    splitOnNl (a ++ '\n' :: s) = a :: splitOnNl s := by
  induction a with
  | nil => simpa using splitOnNl_cons_nl s
  | cons c rest ih =>
    have hc : c ≠ '\n' := fun hc => h (hc ▸ List.mem_cons_self _ _)
    have hrest : '\n' ∉ rest := fun hm => h (List.mem_cons_of_mem _ hm)
    rw [List.cons_append, splitOnNl_cons_not_nl c _ hc, ih hrest]
    rfl

/-- Joining newline-free chunks and splitting again round-trips. -/
theorem splitOnNl_joinNl (ls : List Str) (hne : ls ≠ [])
    (h : ∀ l ∈ ls, '\n' ∉ l) : splitOnNl (joinNl ls) = ls := by
  induction ls with
  | nil => exact absurd rfl hne
  | cons a rest ih =>
    cases rest with
    | nil =>
      show splitOnNl (joinNl [a]) = [a]
      exact splitOnNl_of_not_mem a (h a (List.mem_cons_self _ _))
    | cons b t =>
      show splitOnNl (a ++ '\n' :: joinNl (b :: t)) = a :: b :: t
      rw [splitOnNl_append_nl a _ (h a (List.mem_cons_self _ _))]
      rw [ih (by simp) (fun l hl => h l (List.mem_cons_of_mem _ hl))]

/-- Trailing trim distributes over append: the left part survives
whenever the right part does not vanish. -/
theorem trimEndStr_append (a b : Str) :
    trimEndStr (a ++ b)
      = if (trimEndStr b).isEmpty then trimEndStr a
        else a ++ trimEndStr b := by
  induction a with
  | nil =>
    by_cases hb : (trimEndStr b).isEmpty = true
    · have : trimEndStr b = [] := by simpa using hb
      simp [hb, this, trimEndStr]
    · simp [hb]
  | cons c a' ih =>
    by_cases hb : (trimEndStr b).isEmpty = true
    · rw [List.cons_append]
      simp only [trimEndStr, ih, hb, if_true]
    · have hbne : trimEndStr b ≠ [] := by simpa [List.isEmpty_iff] using hb
      have hne2 : (a' ++ trimEndStr b).isEmpty = false := by
        cases a' <;> simp [List.isEmpty_iff, hbne]
      rw [List.cons_append]
      simp only [trimEndStr, ih, hb, Bool.false_eq_true, if_false, hne2,
        Bool.false_and]
      rfl

/-- A whitespace-only string fully trims away from the right. -/
theorem trimEndStr_of_allWs (w : Str) (h : ∀ x ∈ w, isJsWs x = true) :
    trimEndStr w = [] := by
  induction w with
  | nil => rfl
  | cons c w' ih =>
    have hih : trimEndStr w' = [] :=
      ih (fun x hx => h x (List.mem_cons_of_mem _ hx))
    simp only [trimEndStr, hih]
    simp [h c (List.mem_cons_self _ _)]

/-- A whitespace-only string fully trims away from the left. -/
theorem trimStartStr_of_allWs (w : Str) (h : ∀ x ∈ w, isJsWs x = true) :
    trimStartStr w = [] := by
  induction w with
  | nil => rfl
  | cons c w' ih =>
    simp only [trimStartStr, List.dropWhile_cons,
      h c (List.mem_cons_self _ _), if_true]
    exact ih (fun x hx => h x (List.mem_cons_of_mem _ hx))

/-- Leading trim skips a whitespace-only prefix. -/
theorem trimStartStr_ws_append (w a : Str)
    (h : ∀ x ∈ w, isJsWs x = true) :
    trimStartStr (w ++ a) = trimStartStr a := by
  induction w with
  | nil => rfl
  | cons c w' ih =>
    rw [List.cons_append]
    simp only [trimStartStr, List.dropWhile_cons,
      h c (List.mem_cons_self _ _), if_true]
    exact ih (fun x hx => h x (List.mem_cons_of_mem _ hx))

/-- JS `trim` absorbs a whitespace-only prefix. -/
theorem trimStr_ws_append (w a : Str) (h : ∀ x ∈ w, isJsWs x = true) :
    trimStr (w ++ a) = trimStr a := by
  unfold trimStr
  rw [trimStartStr_ws_append w a h]

/-- When the leading trim leaves something, it commutes past append. -/
theorem trimStartStr_append_of_ne_nil (a w : Str)
    (h : trimStartStr a ≠ []) :
    trimStartStr (a ++ w) = trimStartStr a ++ w := by
  induction a with
  | nil => exact absurd rfl h
  | cons c a' ih =>
    by_cases hc : isJsWs c = true
    · rw [List.cons_append]
      simp only [trimStartStr, List.dropWhile_cons, hc, if_true]
      simp only [trimStartStr, List.dropWhile_cons, hc, if_true] at h
      exact ih h
    · rw [List.cons_append]
      simp only [trimStartStr, List.dropWhile_cons, hc]
      simp

/-- JS `trim` absorbs a whitespace-only suffix. -/
theorem trimStr_append_ws (a w : Str) (h : ∀ x ∈ w, isJsWs x = true) :
    trimStr (a ++ w) = trimStr a := by
  by_cases ha : trimStartStr a = []
  · have haw : ∀ x ∈ a, isJsWs x = true := by
      have := List.dropWhile_eq_nil_iff.mp ha
      simpa [trimStartStr] using this
    have h1 : trimStartStr (a ++ w) = [] := by
      apply trimStartStr_of_allWs
      intro x hx
      rcases List.mem_append.mp hx with h' | h'
      · exact haw x h'
      · exact h x h'
    unfold trimStr
    rw [h1, ha]
  · unfold trimStr
    rw [trimStartStr_append_of_ne_nil a w ha, trimEndStr_append,
      if_pos (by simp [trimEndStr_of_allWs w h])]

/-- Every string is its right-trimmed form plus trailing whitespace. -/
theorem trimEndStr_decomp (t : Str) :
    ∃ w, t = trimEndStr t ++ w ∧ ∀ x ∈ w, isJsWs x = true := by
  induction t with
  | nil => exact ⟨[], rfl, by simp⟩
  | cons c rest ih =>
    obtain ⟨w', hw', hws'⟩ := ih
    by_cases h : ((trimEndStr rest).isEmpty && isJsWs c) = true
    · have hre : trimEndStr rest = [] := by
        have := (Bool.and_eq_true _ _).mp h
        simpa using this.1
      have hwc : isJsWs c = true := ((Bool.and_eq_true _ _).mp h).2
      refine ⟨c :: w', ?_, ?_⟩
      · simp only [trimEndStr, h, if_true]
        rw [hre] at hw'
        simpa using hw'
      · intro x hx
        rcases List.mem_cons.mp hx with h' | h'
        · exact h' ▸ hwc
        · exact hws' x h'
    · refine ⟨w', ?_, hws'⟩
      have hred : trimEndStr (c :: rest) = c :: trimEndStr rest := by
        simp only [trimEndStr]
        rw [if_neg h]
      rw [hred, List.cons_append]
      exact congrArg (c :: ·) hw'

/-- `getLast?.getD` on a nonempty list ignores the default. -/
theorem getLast_getD_cons_irrel (y : Str) (m : List Str) (d1 d2 : Str) :
    ((y :: m).getLast?).getD d1 = ((y :: m).getLast?).getD d2 := by
  cases h : (y :: m).getLast? with
  | none => simp at h
  | some z => rfl

/-- Splitting an appended string: all lines of the left part except
its last, then the last line of the left part merged with the first
line of the right part, then the remaining lines of the right part. -/
theorem splitOnNl_append (a b : Str) :
    splitOnNl (a ++ b)
      = (splitOnNl a).dropLast
        ++ ((splitOnNl a).getLastD [] ++ (splitOnNl b).headD [])
          :: (splitOnNl b).tail := by
  induction a with
  | nil =>
    cases hb : splitOnNl b with
    | nil => exact absurd hb (splitOnNl_ne_nil b)
    | cons hbh hbt => simp [splitOnNl, hb]
  | cons c a' ih =>
    by_cases hc : c = '\n'
    · subst hc
      rw [List.cons_append, splitOnNl_cons_nl, splitOnNl_cons_nl, ih]
      cases ha' : splitOnNl a' with
      | nil => exact absurd ha' (splitOnNl_ne_nil a')
      | cons x xs =>
        rw [List.getLastD_cons]
        cases xs with
        | nil => simp [List.getLastD_cons]
        | cons y ys =>
          simp only [List.getLastD_cons]
          simp [getLast_getD_cons_irrel]
    · rw [List.cons_append, splitOnNl_cons_not_nl c _ hc,
        splitOnNl_cons_not_nl c a' hc, ih]
      cases ha' : splitOnNl a' with
      | nil => exact absurd ha' (splitOnNl_ne_nil a')
      | cons x xs =>
        cases xs with
        | nil => simp [List.getLastD_cons]
        | cons y ys => simp [List.getLastD_cons]

/-- `getLastD` of a nonempty list is a member. -/
theorem getLastD_mem_of_ne_nil (m : List Str) (hm : m ≠ []) (d : Str) :
    m.getLastD d ∈ m := by
  induction m generalizing d with
  | nil => exact absurd rfl hm
  | cons a m' ih =>
    cases m' with
    | nil => simp [List.getLastD_cons]
    | cons b t =>
      rw [List.getLastD_cons]
      exact List.mem_cons_of_mem _ (ih (by simp) a)

/-- A nonempty list is its `dropLast` plus its `getLastD`. -/
theorem dropLast_append_getLastD (m : List Str) (hm : m ≠ []) :
    m.dropLast ++ [m.getLastD []] = m := by
  induction m with
  | nil => exact absurd rfl hm
  | cons a m' ih =>
    cases m' with
    | nil => simp [List.getLastD_cons]
    | cons b t =>
      have hirr : (b :: t).getLastD a = (b :: t).getLastD [] := by
        rw [List.getLastD_cons, List.getLastD_cons]
      rw [List.getLastD_cons, List.dropLast_cons₂, List.cons_append,
        hirr, ih (by simp)]

/-- Left-trimming preserves "no line's trimmed form starts with the
include marker". -/
theorem noIncludeTrimLine_trimStart (t : Str) (h : noIncludeTrimLine t) :
    noIncludeTrimLine (trimStartStr t) := by
  intro l hl
  have hdec : t = t.takeWhile isJsWs ++ trimStartStr t := by
    unfold trimStartStr
    exact (List.takeWhile_append_dropWhile isJsWs t).symm
  have hwall : ∀ x ∈ t.takeWhile isJsWs, isJsWs x = true := by
    intro x hx
    exact List.mem_takeWhile_imp hx
  cases hu : splitOnNl (trimStartStr t) with
  | nil => exact absurd hu (splitOnNl_ne_nil _)
  | cons hu0 tu =>
    have happ := splitOnNl_append (t.takeWhile isJsWs) (trimStartStr t)
    rw [hu, ← hdec] at happ
    simp only [List.headD_cons, List.tail_cons] at happ
    rw [hu] at hl
    have hgw : ∀ x ∈ (splitOnNl (t.takeWhile isJsWs)).getLastD [],
        isJsWs x = true := by
      intro x hx
      exact hwall x (mem_of_mem_splitOnNl _ _
        (getLastD_mem_of_ne_nil _ (splitOnNl_ne_nil _) _) x hx)
    rcases List.mem_cons.mp hl with rfl | hmem
    · have helem :
          ((splitOnNl (t.takeWhile isJsWs)).getLastD [] ++ l)
            ∈ splitOnNl t := by
        rw [happ]
        exact List.mem_append_right _ (List.mem_cons_self _ _)
      have hall := h _ helem
      rwa [trimStr_ws_append _ _ hgw] at hall
    · apply h
      rw [happ]
      exact List.mem_append_right _ (List.mem_cons_of_mem _ hmem)

/-- Right-trimming preserves "no line's trimmed form starts with the
include marker". -/
theorem noIncludeTrimLine_trimEnd (t : Str) (h : noIncludeTrimLine t) :
    noIncludeTrimLine (trimEndStr t) := by
  intro l hl
  obtain ⟨w, hdec, hws⟩ := trimEndStr_decomp t
  cases hw : splitOnNl w with
  | nil => exact absurd hw (splitOnNl_ne_nil w)
  | cons w0 ws =>
    have happ := splitOnNl_append (trimEndStr t) w
    rw [hw, ← hdec] at happ
    simp only [List.headD_cons, List.tail_cons] at happ
    have hw0 : ∀ x ∈ w0, isJsWs x = true := by
      intro x hx
      exact hws x (mem_of_mem_splitOnNl w _ (by simp [hw]) x hx)
    have hsplit := dropLast_append_getLastD (splitOnNl (trimEndStr t))
      (splitOnNl_ne_nil _)
    have hl' : l ∈ (splitOnNl (trimEndStr t)).dropLast
        ++ [(splitOnNl (trimEndStr t)).getLastD []] := by
      rw [hsplit]
      exact hl
    rcases List.mem_append.mp hl' with hmem | hmem
    · apply h
      rw [happ]
      exact List.mem_append_left _ hmem
    · have hleq : l = (splitOnNl (trimEndStr t)).getLastD [] := by
        simpa using hmem
      have helem : (l ++ w0) ∈ splitOnNl t := by
        rw [happ, hleq]
        exact List.mem_append_right _ (List.mem_cons_self _ _)
      have hall := h _ helem
      rwa [trimStr_append_ws _ _ hw0] at hall

/-- JS `trim` preserves "no line's trimmed form starts with the
include marker". -/
theorem noIncludeTrimLine_trimStr (t : Str) (h : noIncludeTrimLine t) :
    noIncludeTrimLine (trimStr t) :=
  noIncludeTrimLine_trimEnd _ (noIncludeTrimLine_trimStart _ h)

/-- The include-line filter establishes the invariant. -/
theorem noIncludeTrimLine_cleanOutput (s : Str) :
    noIncludeTrimLine (cleanOutput s) := by
  intro l hl
  unfold cleanOutput at hl
  cases hf : (splitOnNl s).filter keepLine with
  | nil =>
    rw [hf] at hl
    simp only [joinNl] at hl
    simp only [splitOnNl] at hl
    rcases List.mem_singleton.mp hl with rfl
    decide
  | cons f fs =>
    rw [hf] at hl
    have hnonl : ∀ x ∈ f :: fs, '\n' ∉ x := by
      intro x hx
      have hx' : x ∈ (splitOnNl s).filter keepLine := hf ▸ hx
      exact not_nl_mem_of_mem_splitOnNl s x (List.mem_filter.mp hx').1
    rw [splitOnNl_joinNl _ (by simp) hnonl] at hl
    have hmem : l ∈ (splitOnNl s).filter keepLine := hf ▸ hl
    have hk := (List.mem_filter.mp hmem).2
    simpa [keepLine] using hk

/-- A line whose trimmed form does not start with the include marker
does not itself start with the include marker. -/
theorem noIncludeLine_of_trim (t : Str) (h : noIncludeTrimLine t) :
    noIncludeLine t := by
  intro l hl
  by_contra hp
  have hp' : includeMarker.isPrefixOf l = true := by simpa using hp
  have hpre : includeMarker <+: l := by
    rw [← List.isPrefixOf_iff_prefix]
    exact hp'
  obtain ⟨v, rfl⟩ := hpre
  have hmne : trimStartStr includeMarker = includeMarker := rfl
  have h1 : trimStartStr (includeMarker ++ v) = includeMarker ++ v := by
    rw [trimStartStr_append_of_ne_nil _ _ (by rw [hmne]; decide), hmne]
  have h2 : includeMarker.isPrefixOf (trimStr (includeMarker ++ v))
      = true := by
    unfold trimStr
    rw [h1, trimEndStr_append]
    by_cases hv : (trimEndStr v).isEmpty = true
    · rw [if_pos hv]
      decide
    · rw [if_neg hv, List.isPrefixOf_iff_prefix]
      exact List.prefix_append _ _
  have := h _ hl
  rw [h2] at this
  cases this

/-- C5: the formatter splits the raw output into lines, drops every
line whose trimmed form starts with the include marker, rejoins, and
(in the block pipeline) trims surrounding whitespace; consequently no
line of the cleaned text, nor of its trimmed form, begins with the
include marker, and the information notification of a successful block
run displays exactly the trimmed cleaned stdout. -/
theorem c5_formatter_strips_include_lines (s : Str) (res : ExecResult)
    (dirname docPath : Str) (e : EditorState) (fs : FS) :
    noIncludeLine (cleanOutput s)
    ∧ noIncludeLine (trimStr (cleanOutput s))
    ∧ (execFailed res = false →
        (runSelectedBlockCallback dirname docPath res e fs).msg
          = .infoNotif (trimStr (cleanOutput res.stdout))) := by
  refine ⟨?_, ?_, ?_⟩
  · exact noIncludeLine_of_trim _ (noIncludeTrimLine_cleanOutput s)
  · exact noIncludeLine_of_trim _
      (noIncludeTrimLine_trimStr _ (noIncludeTrimLine_cleanOutput s))
  · intro hf
    simp only [runSelectedBlockCallback, hf, Bool.false_eq_true, if_false]

/-- Witness for C5 at a concrete output that echoes two include lines:
neither the cleaned text nor the block pipeline's displayed message
contains a line beginning with the include marker, and the block
notification shows the trimmed cleaned stdout. -/
theorem c5_formatter_strips_include_lines_witness :
    (includeMarker.isPrefixOf
        ((splitOnNl (cleanOutput
          "#include <stdio.h>\nhello\n  #include <x.h>\nbye".data)).headD [])
      = false)
    ∧ (runSelectedBlockCallback "/ext".data "/home/user/main.c".data
          { error := none,
            stdout := "#include <stdio.h>\nhello".data, stderr := [] }
          ⟨none, none⟩ []).msg
        = .infoNotif "hello".data := by
  constructor
  · have h := (c5_formatter_strips_include_lines
      "#include <stdio.h>\nhello\n  #include <x.h>\nbye".data
      { error := none, stdout := [], stderr := [] }
      [] [] ⟨none, none⟩ []).1
    exact h _ (by decide)
  · have h := (c5_formatter_strips_include_lines []
      { error := none, stdout := "#include <stdio.h>\nhello".data,
        stderr := [] }
      "/ext".data "/home/user/main.c".data ⟨none, none⟩ []).2.2 (by decide)
    rw [h]
    decide

/-- The first-match scan returns `none` exactly when no line of the
document contains a trigger marker. -/
theorem firstMarkerIdx_eq_none (ls : List Str) :
    firstMarkerIdx ls = none ↔ ∀ l ∈ ls, hasMarkerLine l = false := by
  induction ls with
  | nil => simp [firstMarkerIdx]
  | cons l rest ih =>
    by_cases hm : hasMarkerLine l = true
    · simp [firstMarkerIdx, hm]
    · simp only [Bool.not_eq_true] at hm
      simp [firstMarkerIdx, hm, ih]

/-- The first-match scan returns the index of a marker line that is
preceded only by marker-free lines. -/
theorem firstMarkerIdx_eq_some (ls : List Str) (i : Nat)
    (h : firstMarkerIdx ls = some i) :
    ∃ l, ls[i]? = some l ∧ hasMarkerLine l = true
      ∧ ∀ j, j < i → ∀ lj, ls[j]? = some lj → hasMarkerLine lj = false := by
  induction ls generalizing i with
  | nil => simp [firstMarkerIdx] at h
  | cons l rest ih =>
    by_cases hm : hasMarkerLine l = true
    · simp only [firstMarkerIdx, hm, if_true, Option.some.injEq] at h
      subst h
      exact ⟨l, by simp, hm, fun j hj => absurd hj (Nat.not_lt_zero j)⟩
    · simp only [Bool.not_eq_true] at hm
      simp only [firstMarkerIdx, hm, Bool.false_eq_true, if_false,
        Option.map_eq_some'] at h
      obtain ⟨i', hi', rfl⟩ := h
      obtain ⟨l', hl', hml', hbefore⟩ := ih i' hi'
      refine ⟨l', by simpa using hl', hml', ?_⟩
      intro j hj lj hlj
      cases j with
      | zero =>
        simp only [List.getElem?_cons_zero, Option.some.injEq] at hlj
        subst hlj
        exact hm
      | succ j' =>
        have : j' < i' := Nat.lt_of_succ_lt_succ hj
        exact hbefore j' this lj (by simpa using hlj)

/-- C3: a document with no line containing the input/output markers
makes the fired pipeline attempt no compilation and clear any existing
annotation; a document that does contain a marker makes it compile the
full document text, targeting the first matching line. -/
theorem c3_marker_detection (docText : Str) (e : EditorState) :
    ((∀ l ∈ splitOnNl docText, hasMarkerLine l = false) →
      updateOutputFired docText = .clear
      ∧ applyFiredEditor (updateOutputFired docText) e
          = { current := none, errDec := none })
    ∧ ((∃ l ∈ splitOnNl docText, hasMarkerLine l = true) →
      ∃ i, updateOutputFired docText = .run docText i
        ∧ ∃ l, (splitOnNl docText)[i]? = some l ∧ hasMarkerLine l = true
          ∧ ∀ j, j < i → ∀ lj, (splitOnNl docText)[j]? = some lj →
              hasMarkerLine lj = false) := by
  constructor
  · intro hno
    have hnone : firstMarkerIdx (splitOnNl docText) = none :=
      (firstMarkerIdx_eq_none _).mpr hno
    constructor
    · simp [updateOutputFired, hnone]
    · simp [updateOutputFired, hnone, applyFiredEditor, clearOutput]
  · rintro ⟨l, hl, hml⟩
    cases hidx : firstMarkerIdx (splitOnNl docText) with
    | none =>
      have := (firstMarkerIdx_eq_none _).mp hidx l hl
      rw [hml] at this
      cases this
    | some i =>
      refine ⟨i, by simp [updateOutputFired, hidx], ?_⟩
      exact firstMarkerIdx_eq_some _ i hidx

/-- Witness for C3 at two concrete documents: one with no marker (the
pipeline clears), one whose second line holds the first `printf` (the
pipeline runs the whole text against line index 1). -/
theorem c3_marker_detection_witness :
    (updateOutputFired "int x = 1;\nint y;".data = .clear
      ∧ applyFiredEditor (updateOutputFired "int x = 1;\nint y;".data)
          ⟨some [⟨0, 0, "old".data, "grey".data⟩], none⟩
        = { current := none, errDec := none })
    ∧ ∃ i, updateOutputFired "int main\n  printf(hi);\nreturn 0;".data
        = .run "int main\n  printf(hi);\nreturn 0;".data i
      ∧ ∃ l, (splitOnNl "int main\n  printf(hi);\nreturn 0;".data)[i]?
            = some l ∧ hasMarkerLine l = true
        ∧ ∀ j, j < i →
            ∀ lj, (splitOnNl "int main\n  printf(hi);\nreturn 0;".data)[j]?
              = some lj → hasMarkerLine lj = false := by
  constructor
  · exact (c3_marker_detection "int x = 1;\nint y;".data
      ⟨some [⟨0, 0, "old".data, "grey".data⟩], none⟩).1 (by decide)
  · exact (c3_marker_detection "int main\n  printf(hi);\nreturn 0;".data
      ⟨none, none⟩).2 (by decide)

/-- Witness for C7: a whitespace-only selection is rejected with the
exact message and an untouched filesystem. -/
theorem c7_empty_selection_rejected_witness :
    runSelectedBlockStart "  \n\t ".data "/ext".data
        { executionDelay := none, gccPath := none, inlineColor := none }
        ["/other/file".data]
      = .noSelection "No C code selected to execute.".data
          ["/other/file".data] :=
  c7_empty_selection_rejected "  \n\t ".data "/ext".data
    { executionDelay := none, gccPath := none, inlineColor := none }
    ["/other/file".data] (by decide)
